import Mathlib

/-!
Verification of the rust-web-markdown rendering core (src/lib.rs).

The crate converts a position-tagged markdown event stream into a tree of
abstract view nodes through a capability trait (Context).  We shallowly embed:

* the data model (ranges, events, props, link descriptions) from src/lib.rs;
* the default trait methods of Context (make_md_callback,
  render_tasklist_marker, render_rule, render_code, render_text, render_link)
  from src/lib.rs, with the abstract host framework instantiated by a deep
  view type View that records every element-construction call, and handlers
  modelled as functions from mouse events to lists of observable effects;
* the top-level render_markdown function from src/lib.rs (the soft-break
  rewrite and the single mount_dynamic_link call are taken verbatim from the
  source); its inner stack traversal lives in the render module, which is
  absent from the sources, so that traversal is modelled from the spec.

Machine integers (usize byte offsets) are modelled as Nat: the code never
performs arithmetic on them, it only copies them around, so no overflow
behaviour is observable.
-/

namespace RustWebMarkdown

/-- Models core::ops::Range over usize: a half-open byte interval into the
markdown source.  The Rust field named end is called stop here because end is
a Lean keyword. -/
structure SourceRange where
  start : Nat
  stop : Nat
deriving DecidableEq, Repr

/-- Models web_sys::MouseEvent abstractly: the core never inspects the event,
it only forwards it, so a bare numeric identifier is enough to track identity. -/
structure MouseEvent where
  id : Nat
deriving DecidableEq, Repr

/-- Models MarkdownMouseEvent from src/lib.rs: the original mouse event
paired with the corresponding range in the markdown source. -/
structure MarkdownMouseEvent where
  mouse_event : MouseEvent
  position : SourceRange
deriving DecidableEq, Repr

/-- Observable effects of activating a handler produced by the core.
preventDefault and stopPropagation model the web_sys calls of those names;
callbackInvoked models call_handler on the single configured top-level
click callback, carrying the MarkdownMouseEvent it was given. -/
inductive Effect where
  | preventDefault (e : MouseEvent)
  | stopPropagation (e : MouseEvent)
  | callbackInvoked (ev : MarkdownMouseEvent)
deriving DecidableEq, Repr

/-- A handler (Context::Handler over MouseEvent): activating it on a host
mouse event yields the ordered list of observable effects it performs. -/
def Handler : Type := MouseEvent → List Effect

/-- Models the HtmlElement enum from src/lib.rs. -/
inductive HtmlElement where
  | Div
  | Span
  | Paragraph
  | BlockQuote
  | Ul
  | Ol (start : Int)
  | Li
  | Heading (level : Nat)
  | Table
  | Thead
  | Trow
  | Tcell
  | Italics
  | Bold
  | StrikeThrough
  | Pre
  | Code
deriving DecidableEq, Repr

/-- Models ElementAttributes from src/lib.rs. -/
structure ElementAttributes where
  classes : List String := []
  style : Option String := none
  inner_html : Option String := none
  on_click : Option Handler := none

/-- The deep view type: one constructor per element-construction capability
of the Context trait (el_with_attributes, el_hr, el_br, el_fragment, el_a,
el_img, el_text, el_input_checkbox).  el_empty is el_fragment applied to the
empty list, exactly as in the trait default method. -/
inductive View where
  | el (e : HtmlElement) (attributes : ElementAttributes) (inside : View)
  | hr (attributes : ElementAttributes)
  | br
  | fragment (children : List View)
  | a (children : View) (href : String)
  | img (src : String) (alt : String)
  | text (t : String)
  | inputCheckbox (checked : Bool) (attributes : ElementAttributes)

/-- Models the LinkType enum re-exported from pulldown_cmark_wikilink (only
its identity matters to the core: it is stored and passed through). -/
inductive LinkType where
  | inline
  | reference
  | collapsed
  | shortcut
  | autolink
  | email
  | wikilink
deriving DecidableEq, Repr

/-- Models LinkDescription from src/lib.rs. -/
structure LinkDescription where
  url : String
  content : View
  title : String
  link_type : LinkType
  image : Bool

/-- Models MdComponentProps from src/lib.rs. -/
structure MdComponentProps where
  attributes : List (String × String)
  children : View

/-- Models MarkdownProps from src/lib.rs.  The configured top-level click
callback is external to the core: only its presence is observable (invoking
it is recorded as an Effect), so on_click is modelled as Option Unit.
HtmlCallback values return views, so render_links and the component registry
keep their functional payloads.  The components HashMap is modelled as an
association list.  The parser-facing fields (theme, parse_options) play no
role in the claims and carry no behaviour inside the core. -/
structure MarkdownProps where
  on_click : Option Unit
  render_links : Option (LinkDescription → View)
  wikilinks : Bool
  hard_line_breaks : Bool
  components : List (String × (MdComponentProps → View))
  frontmatter : Option Unit

/-- Models Context::make_md_callback from src/lib.rs lines 81 to 96: clone
the configured on_click callback, build a MarkdownMouseEvent from the host
event and the captured position, and forward it to the callback when one is
configured, otherwise do nothing. -/
def make_md_callback (props : MarkdownProps) (position : SourceRange) : Handler :=
  fun x =>
    let click_event : MarkdownMouseEvent := ⟨x, position⟩
    match props.on_click with
    | some _ => [Effect.callbackInvoked click_event]
    | none => []

/-- Models Context::render_tasklist_marker from src/lib.rs lines 98 to 118:
the click handler first calls prevent_default, then stop_propagation, then
builds a MarkdownMouseEvent from the captured position and forwards it to
the configured callback when present; the view is a checkbox input whose
checked state is the marker value. -/
def render_tasklist_marker (props : MarkdownProps) (m : Bool) (position : SourceRange) : View :=
  let callback : Handler := fun e =>
    Effect.preventDefault e :: Effect.stopPropagation e ::
      (let click_event : MarkdownMouseEvent := ⟨e, position⟩
       match props.on_click with
       | some _ => [Effect.callbackInvoked click_event]
       | none => [])
  View.inputCheckbox m { on_click := some callback }

/-- Models Context::render_rule from src/lib.rs lines 120 to 126. -/
def render_rule (props : MarkdownProps) (range : SourceRange) : View :=
  View.hr { on_click := some (make_md_callback props range) }

/-- Models Context::render_code from src/lib.rs lines 129 to 136. -/
def render_code (props : MarkdownProps) (s : String) (range : SourceRange) : View :=
  View.el HtmlElement.Code { on_click := some (make_md_callback props range) } (View.text s)

/-- Models Context::render_text from src/lib.rs lines 139 to 146. -/
def render_text (props : MarkdownProps) (s : String) (range : SourceRange) : View :=
  View.el HtmlElement.Span { on_click := some (make_md_callback props range) } (View.text s)

/-- Models Context::render_link from src/lib.rs lines 149 to 157: an
override callback takes precedence for links and images alike; without one,
a non-image becomes an anchor around the content with the URL as href, and
an image becomes an img with the URL as src and the title as alt. -/
def render_link (props : MarkdownProps) (link : LinkDescription) : View :=
  match props.render_links, link.image with
  | some f, _ => f link
  | none, false => View.a link.content link.url
  | none, true => View.img link.url link.title

/-- Modelled from the spec: the BlockOrInlineKind tagged union of section 3
(the parser type and the render module that consumes it are absent from the
sources).  Block constructs, inline constructs, a link or image kind carrying
resolved URL, title, link type and image flag, and a custom component kind
carrying the component name and its raw attribute pairs. -/
inductive Tag where
  | paragraph
  | heading (level : Nat)
  | blockQuote
  | orderedList (start : Int)
  | unorderedList
  | item
  | table
  | tableHead
  | tableRow
  | tableCell
  | codeBlock
  | emphasis
  | strong
  | strikethrough
  | link (link_type : LinkType) (url : String) (title : String) (image : Bool)
  | component (name : String) (attributes : List (String × String))
deriving DecidableEq, Repr

/-- Modelled from the spec: the Event tagged union of section 3, with
endTag standing for the End variant (end is a Lean keyword).  Each event is
paired with a SourceRange by the external parser. -/
inductive Event where
  | start (t : Tag)
  | endTag (t : Tag)
  | text (s : String)
  | code (s : String)
  | html (s : String)
  | rule
  | softBreak
  | hardBreak
  | taskListMarker (checked : Bool)
  | math (display : Bool) (s : String)
deriving DecidableEq, Repr

/-- Modelled from the spec: the single fatal error class of section 7, a
structural mismatch between Start and End markers (an End with no open
Start, an End whose kind differs from the top of the stack, or open
accumulators left at the end of the stream). -/
inductive RenderError where
  | structuralMismatch
deriving DecidableEq, Repr

/-- Modelled from the spec: an in-progress subtree accumulator of the
render stack (section 3), recording the construct kind, the starting byte
offset of its Start marker, and the already-rendered children in reverse
order of arrival. -/
structure Accumulator where
  tag : Tag
  startPos : Nat
  children : List View

/-- Looks a component name up in the registry association list, modelling
HashMap::get on MarkdownProps::components. -/
def lookupComponent : List (String × (MdComponentProps → View)) → String → Option (MdComponentProps → View)
  | [], _ => none
  | (k, f) :: rest, name => if k = name then some f else lookupComponent rest name

/-- Modelled from the spec: materialization of an atomic leaf event
(section 4.1).  Text, inline code, rules and task-list markers go through
the Context default methods embedded above from the source; a soft break
renders as a plain newline text leaf while a hard break renders as an
explicit line-break element (per the spec the two produce different node
kinds); html is passed through as a raw payload; math renders as an inline
element carrying its source and a position-bearing click handler.  Start
and End markers are not leaves and are never passed here by the traversal;
they map to the empty node. -/
def renderLeaf (props : MarkdownProps) (e : Event) (r : SourceRange) : View :=
  match e with
  | Event.text s => render_text props s r
  | Event.code s => render_code props s r
  | Event.html s => View.el HtmlElement.Span { inner_html := some s } (View.fragment [])
  | Event.rule => render_rule props r
  | Event.softBreak => View.text "\n"
  | Event.hardBreak => View.br
  | Event.taskListMarker b => render_tasklist_marker props b r
  | Event.math _ s =>
      View.el HtmlElement.Span
        { inner_html := some s, on_click := some (make_md_callback props r) }
        (View.fragment [])
  | Event.start _ => View.fragment []
  | Event.endTag _ => View.fragment []

/-- Wraps rendered children in an element of the given kind with a
position-bearing click handler, modelling the per-construct element
construction of the spec (every materialized block or inline element
receives a click handler synthesizing a MarkdownMouseEvent). -/
def elWrap (props : MarkdownProps) (e : HtmlElement) (children : List View)
    (r : SourceRange) : View :=
  View.el e { on_click := some (make_md_callback props r) } (View.fragment children)

/-- Modelled from the spec: materialization of a completed subtree when its
End marker fires (section 4.1).  Simple block and inline kinds wrap their
children in the corresponding element; a link or image forms a
LinkDescription whose content is the fragment of accumulated children and
goes through render_link (embedded from the source); a custom component is
dispatched to its registered callback, or degrades to the empty node when
the name is absent from the registry. -/
def materialize (props : MarkdownProps) (t : Tag) (children : List View)
    (r : SourceRange) : View :=
  match t with
  | Tag.paragraph => elWrap props HtmlElement.Paragraph children r
  | Tag.heading level => elWrap props (HtmlElement.Heading level) children r
  | Tag.blockQuote => elWrap props HtmlElement.BlockQuote children r
  | Tag.orderedList s => elWrap props (HtmlElement.Ol s) children r
  | Tag.unorderedList => elWrap props HtmlElement.Ul children r
  | Tag.item => elWrap props HtmlElement.Li children r
  | Tag.table => elWrap props HtmlElement.Table children r
  | Tag.tableHead => elWrap props HtmlElement.Thead children r
  | Tag.tableRow => elWrap props HtmlElement.Trow children r
  | Tag.tableCell => elWrap props HtmlElement.Tcell children r
  | Tag.codeBlock => elWrap props HtmlElement.Pre children r
  | Tag.emphasis => elWrap props HtmlElement.Italics children r
  | Tag.strong => elWrap props HtmlElement.Bold children r
  | Tag.strikethrough => elWrap props HtmlElement.StrikeThrough children r
  | Tag.link lt url title image =>
      render_link props ⟨url, View.fragment children, title, lt, image⟩
  | Tag.component name attrs =>
      match lookupComponent props.components name with
      | some f => f ⟨attrs, View.fragment children⟩
      | none => View.fragment []

/-- Modelled from the spec: the single forward pass of the render engine
(section 4.1), standing in for the render module absent from the sources.
Start pushes an accumulator recording the starting offset; a leaf event is
materialized immediately and appended to the top accumulator, or to the
top-level output when the stack is empty; End pops the top accumulator,
which must carry the same kind (any mismatch, an End on an empty stack, or
leftover accumulators at the end of the stream is the fatal
structuralMismatch error of section 7, with no fragmentary output). -/
def renderEvents (props : MarkdownProps) :
    List Accumulator → List View → List (Event × SourceRange) →
    Except RenderError (List View)
  | stack, out, [] =>
      match stack with
      | [] => Except.ok out.reverse
      | _ :: _ => Except.error RenderError.structuralMismatch
  | stack, out, (Event.start t, r) :: rest =>
      renderEvents props (⟨t, r.start, []⟩ :: stack) out rest
  | stack, out, (Event.endTag t, r) :: rest =>
      match stack with
      | [] => Except.error RenderError.structuralMismatch
      | acc :: stackRest =>
          if acc.tag = t then
            let v := materialize props t acc.children.reverse ⟨acc.startPos, r.stop⟩
            match stackRest with
            | [] => renderEvents props [] (v :: out) rest
            | acc2 :: more =>
                renderEvents props ({ acc2 with children := v :: acc2.children } :: more) out rest
          else Except.error RenderError.structuralMismatch
  | stack, out, (e, r) :: rest =>
      let v := renderLeaf props e r
      match stack with
      | [] => renderEvents props [] (v :: out) rest
      | acc :: more =>
          renderEvents props ({ acc with children := v :: acc.children } :: more) out rest

/-- One step of the traversal on an explicit machine state (stack of open
accumulators, reversed top-level output): the same transition renderEvents
performs on one event, with the state returned instead of consumed by the
recursion.  Used to reason compositionally about subtree rendering. -/
def renderStep (props : MarkdownProps) (st : List Accumulator × List View)
    (p : Event × SourceRange) : Except RenderError (List Accumulator × List View) :=
  match p with
  | (Event.start t, r) => Except.ok (⟨t, r.start, []⟩ :: st.1, st.2)
  | (Event.endTag t, r) =>
      match st.1 with
      | [] => Except.error RenderError.structuralMismatch
      | acc :: stackRest =>
          if acc.tag = t then
            let v := materialize props t acc.children.reverse ⟨acc.startPos, r.stop⟩
            match stackRest with
            | [] => Except.ok ([], v :: st.2)
            | acc2 :: more =>
                Except.ok ({ acc2 with children := v :: acc2.children } :: more, st.2)
          else Except.error RenderError.structuralMismatch
  | (e, r) =>
      let v := renderLeaf props e r
      match st.1 with
      | [] => Except.ok ([], v :: st.2)
      | acc :: more => Except.ok ({ acc with children := v :: acc.children } :: more, st.2)

/-- Iterates renderStep over an event list, short-circuiting on the fatal
error, and returns the final machine state. -/
def renderFold (props : MarkdownProps) (st : List Accumulator × List View) :
    List (Event × SourceRange) → Except RenderError (List Accumulator × List View)
  | [] => Except.ok st
  | p :: rest =>
      match renderStep props st p with
      | Except.error e => Except.error e
      | Except.ok st2 => renderFold props st2 rest

/-- Observable side effects of a render pass outside the view tree: the
Context::mount_dynamic_link capability call with its four arguments. -/
inductive SideEffect where
  | mountDynamicLink (rel : String) (href : String) (integrity : String) (crossorigin : String)
deriving DecidableEq, Repr

/-- The relation argument of the mount_dynamic_link call in src/lib.rs. -/
def katexRel : String := "stylesheet"

/-- The href argument of the mount_dynamic_link call in src/lib.rs. -/
def katexHref : String := "https://cdn.jsdelivr.net/npm/katex@0.16.7/dist/katex.min.css"

/-- The integrity argument of the mount_dynamic_link call in src/lib.rs. -/
def katexIntegrity : String := "sha384-3UiQGuEI4TTMaFmGIZumfRPtfKQ3trwQE2JgosJxCnGmQpL/lJdjpcHkaaFwHlcI"

/-- The crossorigin argument of the mount_dynamic_link call in src/lib.rs. -/
def katexCrossorigin : String := "anonymous"

/-- Models the soft-break pre-pass of render_markdown, src/lib.rs lines 233
to 239: every SoftBreak event in the collected stream is rewritten in place
to HardBreak. -/
def replaceSoftBreaks (stream : List (Event × SourceRange)) : List (Event × SourceRange) :=
  stream.map fun p => if p.1 = Event.softBreak then (Event.hardBreak, p.2) else p

/-- Models render_markdown from src/lib.rs lines 223 to 253, taken over the
already-parsed event stream (the parser is the external event source of the
spec).  When hard_line_breaks is set the stream is rewritten by the
soft-break pre-pass; the stream is then traversed (the traversal itself is
modelled from the spec, see renderEvents); after the traversal completes,
mount_dynamic_link is called exactly once with the fixed KaTeX stylesheet
arguments, and the elements are wrapped in one top-level fragment.  The
side-effect list records the mount calls of the pass in order, after the
traversal. -/
def render_markdown (props : MarkdownProps) (stream : List (Event × SourceRange)) :
    Except RenderError (View × List SideEffect) :=
  let stream2 := if props.hard_line_breaks then replaceSoftBreaks stream else stream
  match renderEvents props [] [] stream2 with
  | Except.error e => Except.error e
  | Except.ok elements =>
      Except.ok (View.fragment elements,
        [SideEffect.mountDynamicLink katexRel katexHref katexIntegrity katexCrossorigin])

/-- Extracts the click handler attached to a view node, when the node kind
carries attributes. -/
def View.onClick? : View → Option Handler
  | View.el _ attrs _ => attrs.on_click
  | View.hr attrs => attrs.on_click
  | View.inputCheckbox _ attrs => attrs.on_click
  | _ => none

/-- Activates the click handler of a view node on a host mouse event and
returns the observable effects; a node without a handler is inert. -/
def fireClick (v : View) (e : MouseEvent) : List Effect :=
  match v.onClick? with
  | some h => h e
  | none => []

/-- The source ranges carried by the MarkdownMouseEvents dispatched in an
effect list, in order. -/
def clickPositions (effs : List Effect) : List SourceRange :=
  effs.filterMap fun eff =>
    match eff with
    | Effect.callbackInvoked ev => some ev.position
    | _ => none

/-- Counts the mount_dynamic_link calls in a side-effect list. -/
def mountCount (effs : List SideEffect) : Nat :=
  (effs.filter fun eff =>
    match eff with
    | SideEffect.mountDynamicLink _ _ _ _ => true).length

/-- The number of mount_dynamic_link calls a render result performed: a
fatal error aborts the pass before the mount call is reached. -/
def resultMountCount (res : Except RenderError (View × List SideEffect)) : Nat :=
  match res with
  | Except.ok (_, effs) => mountCount effs
  | Except.error _ => 0

/-- Whether a render result is a completed pass rather than a fatal error. -/
def renderSucceeds (res : Except RenderError (View × List SideEffect)) : Bool :=
  match res with
  | Except.ok _ => true
  | Except.error _ => false

/-- Counts the math constructs occurring in an event stream. -/
def mathCount (stream : List (Event × SourceRange)) : Nat :=
  (stream.filter fun p =>
    match p.1 with
    | Event.math _ _ => true
    | _ => false).length

/-- Structural well-formedness check of an event stream against a stack of
open kinds: every End must meet a matching open Start, and nothing may stay
open at the end of the stream.  This mirrors the invariant the spec ascribes
to the upstream parser. -/
def checkBalance : List Tag → List (Event × SourceRange) → Bool
  | stack, [] => stack.isEmpty
  | stack, (Event.start t, _) :: rest => checkBalance (t :: stack) rest
  | stack, (Event.endTag t, _) :: rest =>
      match stack with
      | [] => false
      | t2 :: s => t2 = t && checkBalance s rest
  | stack, _ :: rest => checkBalance stack rest

/-- An example link-override callback used to instantiate the override
claims on a concrete input. -/
def linkOverrideExample : LinkDescription → View :=
  fun link => View.el HtmlElement.Div {} link.content

/-- An example component registry used to instantiate the unregistered
component claim on a concrete input. -/
def registryExample : List (String × (MdComponentProps → View)) :=
  [("Counter", fun p => p.children)]

/-- Concrete props with the example link override configured, used to
instantiate the link-override claim. -/
def propsOverrideW : MarkdownProps := ⟨none, some linkOverrideExample, false, false, [], none⟩

/-- Concrete props with no callbacks configured, used to instantiate the
default-anchor side of the link claim. -/
def propsPlainW : MarkdownProps := ⟨none, none, false, false, [], none⟩

/-- A concrete inner stream for a link subtree containing a text leaf and a
nested emphasis subtree, exercising link content beyond a single leaf. -/
def innerEmphasisW : List (Event × SourceRange) :=
  [(Event.text "hi", ⟨1, 3⟩), (Event.start Tag.emphasis, ⟨4, 10⟩),
   (Event.text "em", ⟨5, 9⟩), (Event.endTag Tag.emphasis, ⟨4, 10⟩)]

/-- The independently rendered children of innerEmphasisW under the
override props. -/
def childrenOverrideW : List View :=
  [render_text propsOverrideW "hi" ⟨1, 3⟩,
   elWrap propsOverrideW HtmlElement.Italics [render_text propsOverrideW "em" ⟨5, 9⟩] ⟨4, 10⟩]

/-- The independently rendered children of innerEmphasisW under the plain
props. -/
def childrenPlainW : List View :=
  [render_text propsPlainW "hi" ⟨1, 3⟩,
   elWrap propsPlainW HtmlElement.Italics [render_text propsPlainW "em" ⟨5, 9⟩] ⟨4, 10⟩]

/-- Rewriting soft breaks to hard breaks is idempotent: a second pass finds
no SoftBreak left to rewrite. -/
theorem replaceSoftBreaks_idem (stream : List (Event × SourceRange)) :
    replaceSoftBreaks (replaceSoftBreaks stream) = replaceSoftBreaks stream := by
  induction stream with
  | nil => rfl
  | cons p rest ih =>
      obtain ⟨e, r⟩ := p
      cases e <;> simpa [replaceSoftBreaks] using ih

/-- The soft-break rewrite touches no Start or End marker, so it preserves
the structural balance of a stream. -/
theorem checkBalance_replaceSoftBreaks :
    ∀ (events : List (Event × SourceRange)) (stack : List Tag),
      checkBalance stack (replaceSoftBreaks events) = checkBalance stack events := by
  intro events
  induction events with
  | nil => intro stack; rfl
  | cons p rest ih =>
      intro stack
      obtain ⟨e, r⟩ := p
      have ih2 : ∀ (s : List Tag),
          checkBalance s (List.map
            (fun p => if p.1 = Event.softBreak then (Event.hardBreak, p.2) else p) rest) =
          checkBalance s rest := fun s => ih s
      cases e <;> cases stack <;>
        simp [replaceSoftBreaks, checkBalance, ih2]

/-- The traversal aborts with the fatal structural-mismatch error on every
stream that is unbalanced with respect to the open kinds of the current
stack: an End on an empty stack, an End whose kind differs from the top of
the stack, or accumulators left open at the end of the stream. -/
theorem renderEvents_unbalanced (props : MarkdownProps) :
    ∀ (events : List (Event × SourceRange)) (stack : List Accumulator) (out : List View),
      checkBalance (stack.map Accumulator.tag) events = false →
      renderEvents props stack out events = Except.error RenderError.structuralMismatch := by
  intro events
  induction events with
  | nil =>
      intro stack out h
      cases stack with
      | nil => simp [checkBalance] at h
      | cons a s => simp [renderEvents]
  | cons p rest ih =>
      intro stack out h
      obtain ⟨e, r⟩ := p
      cases e with
      | start t =>
          simp only [checkBalance, List.map] at h
          have h2 : checkBalance ((⟨t, r.start, []⟩ :: stack).map Accumulator.tag) rest = false := by
            simpa using h
          simpa [renderEvents] using ih _ _ h2
      | endTag t =>
          cases stack with
          | nil => simp [renderEvents]
          | cons acc stackRest =>
              simp only [checkBalance, List.map, Bool.and_eq_false_iff] at h
              by_cases htag : acc.tag = t
              · rcases h with h | h
                · simp [htag] at h
                · cases stackRest with
                  | nil =>
                      simpa [renderEvents, htag] using ih _ _ (by simpa using h)
                  | cons acc2 more =>
                      simpa [renderEvents, htag] using ih _ _ (by simpa using h)
              · simp [renderEvents, htag]
      | text s =>
          cases stack with
          | nil => simpa [renderEvents] using ih _ _ (by simpa [checkBalance] using h)
          | cons acc more => simpa [renderEvents] using ih _ _ (by simpa [checkBalance] using h)
      | code s =>
          cases stack with
          | nil => simpa [renderEvents] using ih _ _ (by simpa [checkBalance] using h)
          | cons acc more => simpa [renderEvents] using ih _ _ (by simpa [checkBalance] using h)
      | html s =>
          cases stack with
          | nil => simpa [renderEvents] using ih _ _ (by simpa [checkBalance] using h)
          | cons acc more => simpa [renderEvents] using ih _ _ (by simpa [checkBalance] using h)
      | rule =>
          cases stack with
          | nil => simpa [renderEvents] using ih _ _ (by simpa [checkBalance] using h)
          | cons acc more => simpa [renderEvents] using ih _ _ (by simpa [checkBalance] using h)
      | softBreak =>
          cases stack with
          | nil => simpa [renderEvents] using ih _ _ (by simpa [checkBalance] using h)
          | cons acc more => simpa [renderEvents] using ih _ _ (by simpa [checkBalance] using h)
      | hardBreak =>
          cases stack with
          | nil => simpa [renderEvents] using ih _ _ (by simpa [checkBalance] using h)
          | cons acc more => simpa [renderEvents] using ih _ _ (by simpa [checkBalance] using h)
      | taskListMarker b =>
          cases stack with
          | nil => simpa [renderEvents] using ih _ _ (by simpa [checkBalance] using h)
          | cons acc more => simpa [renderEvents] using ih _ _ (by simpa [checkBalance] using h)
      | math d s =>
          cases stack with
          | nil => simpa [renderEvents] using ih _ _ (by simpa [checkBalance] using h)
          | cons acc more => simpa [renderEvents] using ih _ _ (by simpa [checkBalance] using h)

/-- Running the traversal machine over a concatenation runs it over the
first part and continues from the resulting state. -/
theorem renderFold_append (props : MarkdownProps) :
    ∀ (xs ys : List (Event × SourceRange)) (st : List Accumulator × List View),
      renderFold props st (xs ++ ys) =
        match renderFold props st xs with
        | Except.error e => Except.error e
        | Except.ok st2 => renderFold props st2 ys := by
  intro xs
  induction xs with
  | nil => intro ys st; simp [renderFold]
  | cons p rest ih =>
      intro ys st
      simp only [List.cons_append, renderFold]
      cases renderStep props st p with
      | error e => simp
      | ok st2 => simpa using ih ys st2

/-- The recursive traversal agrees with iterating the explicit step
machine and applying the final stack check of the spec. -/
theorem renderEvents_eq_fold (props : MarkdownProps) :
    ∀ (events : List (Event × SourceRange)) (stack : List Accumulator) (out : List View),
      renderEvents props stack out events =
        match renderFold props (stack, out) events with
        | Except.error e => Except.error e
        | Except.ok ([], o) => Except.ok o.reverse
        | Except.ok (_ :: _, _) => Except.error RenderError.structuralMismatch := by
  intro events
  induction events with
  | nil =>
      intro stack out
      cases stack <;> simp [renderEvents, renderFold]
  | cons p rest ih =>
      intro stack out
      obtain ⟨e, r⟩ := p
      cases e with
      | start t =>
          simp only [renderEvents, renderFold, renderStep]
          exact ih _ _
      | endTag t =>
          cases stack with
          | nil => simp [renderEvents, renderFold, renderStep]
          | cons acc stackRest =>
              by_cases htag : acc.tag = t
              · cases stackRest with
                | nil =>
                    simp only [renderEvents, renderFold, renderStep, htag, if_true]
                    exact ih _ _
                | cons a more =>
                    simp only [renderEvents, renderFold, renderStep, htag, if_true]
                    exact ih _ _
              · simp [renderEvents, renderFold, renderStep, htag]
      | text s =>
          cases stack with
          | nil => simp only [renderEvents, renderFold, renderStep]; exact ih _ _
          | cons acc more => simp only [renderEvents, renderFold, renderStep]; exact ih _ _
      | code s =>
          cases stack with
          | nil => simp only [renderEvents, renderFold, renderStep]; exact ih _ _
          | cons acc more => simp only [renderEvents, renderFold, renderStep]; exact ih _ _
      | html s =>
          cases stack with
          | nil => simp only [renderEvents, renderFold, renderStep]; exact ih _ _
          | cons acc more => simp only [renderEvents, renderFold, renderStep]; exact ih _ _
      | rule =>
          cases stack with
          | nil => simp only [renderEvents, renderFold, renderStep]; exact ih _ _
          | cons acc more => simp only [renderEvents, renderFold, renderStep]; exact ih _ _
      | softBreak =>
          cases stack with
          | nil => simp only [renderEvents, renderFold, renderStep]; exact ih _ _
          | cons acc more => simp only [renderEvents, renderFold, renderStep]; exact ih _ _
      | hardBreak =>
          cases stack with
          | nil => simp only [renderEvents, renderFold, renderStep]; exact ih _ _
          | cons acc more => simp only [renderEvents, renderFold, renderStep]; exact ih _ _
      | taskListMarker b =>
          cases stack with
          | nil => simp only [renderEvents, renderFold, renderStep]; exact ih _ _
          | cons acc more => simp only [renderEvents, renderFold, renderStep]; exact ih _ _
      | math d s =>
          cases stack with
          | nil => simp only [renderEvents, renderFold, renderStep]; exact ih _ _
          | cons acc more => simp only [renderEvents, renderFold, renderStep]; exact ih _ _

/-- Frame property of the traversal: a run below one extra open
accumulator mirrors the corresponding shallower run step for step, the
views that the shallower run emits at its top level accumulating as
children of that accumulator instead. -/
theorem renderFold_frame (props : MarkdownProps) :
    ∀ (inner : List (Event × SourceRange)) (s2 : List Accumulator) (o2 : List View)
      (acc : Accumulator) (stack : List Accumulator) (out : List View)
      (s2f : List Accumulator) (o2f : List View),
      renderFold props (s2, o2) inner = Except.ok (s2f, o2f) →
      renderFold props (s2 ++ { acc with children := o2 ++ acc.children } :: stack, out) inner =
        Except.ok (s2f ++ { acc with children := o2f ++ acc.children } :: stack, out) := by
  intro inner
  induction inner with
  | nil =>
      intro s2 o2 acc stack out s2f o2f h
      simp only [renderFold] at h
      cases h with
      | refl => simp [renderFold]
  | cons p rest ih =>
      intro s2 o2 acc stack out s2f o2f h
      obtain ⟨e, r⟩ := p
      cases e with
      | start t =>
          simp only [renderFold, renderStep] at h ⊢
          exact ih (⟨t, r.start, []⟩ :: s2) o2 acc stack out s2f o2f h
      | endTag t =>
          cases s2 with
          | nil => simp [renderFold, renderStep] at h
          | cons a s2tl =>
              by_cases htag : a.tag = t
              · cases s2tl with
                | nil =>
                    simp only [renderFold, renderStep, htag, if_true, List.cons_append,
                      List.nil_append] at h ⊢
                    exact ih []
                      (materialize props t a.children.reverse ⟨a.startPos, r.stop⟩ :: o2)
                      acc stack out s2f o2f h
                | cons a2 s2tl2 =>
                    simp only [renderFold, renderStep, htag, if_true, List.cons_append] at h ⊢
                    exact ih
                      (⟨a2.tag, a2.startPos,
                        materialize props t a.children.reverse ⟨a.startPos, r.stop⟩ :: a2.children⟩ :: s2tl2)
                      o2 acc stack out s2f o2f h
              · simp [renderFold, renderStep, htag] at h
      | text s =>
          cases s2 with
          | nil =>
              simp only [renderFold, renderStep, List.nil_append] at h ⊢
              exact ih [] (renderLeaf props (Event.text s) r :: o2) acc stack out s2f o2f h
          | cons a s2tl =>
              simp only [renderFold, renderStep, List.cons_append] at h ⊢
              exact ih ({ a with children := renderLeaf props (Event.text s) r :: a.children } :: s2tl)
                o2 acc stack out s2f o2f h
      | code s =>
          cases s2 with
          | nil =>
              simp only [renderFold, renderStep, List.nil_append] at h ⊢
              exact ih [] (renderLeaf props (Event.code s) r :: o2) acc stack out s2f o2f h
          | cons a s2tl =>
              simp only [renderFold, renderStep, List.cons_append] at h ⊢
              exact ih ({ a with children := renderLeaf props (Event.code s) r :: a.children } :: s2tl)
                o2 acc stack out s2f o2f h
      | html s =>
          cases s2 with
          | nil =>
              simp only [renderFold, renderStep, List.nil_append] at h ⊢
              exact ih [] (renderLeaf props (Event.html s) r :: o2) acc stack out s2f o2f h
          | cons a s2tl =>
              simp only [renderFold, renderStep, List.cons_append] at h ⊢
              exact ih ({ a with children := renderLeaf props (Event.html s) r :: a.children } :: s2tl)
                o2 acc stack out s2f o2f h
      | rule =>
          cases s2 with
          | nil =>
              simp only [renderFold, renderStep, List.nil_append] at h ⊢
              exact ih [] (renderLeaf props Event.rule r :: o2) acc stack out s2f o2f h
          | cons a s2tl =>
              simp only [renderFold, renderStep, List.cons_append] at h ⊢
              exact ih ({ a with children := renderLeaf props Event.rule r :: a.children } :: s2tl)
                o2 acc stack out s2f o2f h
      | softBreak =>
          cases s2 with
          | nil =>
              simp only [renderFold, renderStep, List.nil_append] at h ⊢
              exact ih [] (renderLeaf props Event.softBreak r :: o2) acc stack out s2f o2f h
          | cons a s2tl =>
              simp only [renderFold, renderStep, List.cons_append] at h ⊢
              exact ih ({ a with children := renderLeaf props Event.softBreak r :: a.children } :: s2tl)
                o2 acc stack out s2f o2f h
      | hardBreak =>
          cases s2 with
          | nil =>
              simp only [renderFold, renderStep, List.nil_append] at h ⊢
              exact ih [] (renderLeaf props Event.hardBreak r :: o2) acc stack out s2f o2f h
          | cons a s2tl =>
              simp only [renderFold, renderStep, List.cons_append] at h ⊢
              exact ih ({ a with children := renderLeaf props Event.hardBreak r :: a.children } :: s2tl)
                o2 acc stack out s2f o2f h
      | taskListMarker b =>
          cases s2 with
          | nil =>
              simp only [renderFold, renderStep, List.nil_append] at h ⊢
              exact ih [] (renderLeaf props (Event.taskListMarker b) r :: o2) acc stack out s2f o2f h
          | cons a s2tl =>
              simp only [renderFold, renderStep, List.cons_append] at h ⊢
              exact ih ({ a with children := renderLeaf props (Event.taskListMarker b) r :: a.children } :: s2tl)
                o2 acc stack out s2f o2f h
      | math d s =>
          cases s2 with
          | nil =>
              simp only [renderFold, renderStep, List.nil_append] at h ⊢
              exact ih [] (renderLeaf props (Event.math d s) r :: o2) acc stack out s2f o2f h
          | cons a s2tl =>
              simp only [renderFold, renderStep, List.cons_append] at h ⊢
              exact ih ({ a with children := renderLeaf props (Event.math d s) r :: a.children } :: s2tl)
                o2 acc stack out s2f o2f h

/-- A successful top-level traversal corresponds to a machine run ending
with an empty stack and the produced views in reverse accumulation
order. -/
theorem renderFold_of_renderEvents_ok (props : MarkdownProps)
    (events : List (Event × SourceRange)) (children : List View)
    (h : renderEvents props [] [] events = Except.ok children) :
    renderFold props ([], []) events = Except.ok ([], children.reverse) := by
  rw [renderEvents_eq_fold] at h
  rcases hf : renderFold props ([], []) events with e | st
  · rw [hf] at h; cases h
  · obtain ⟨s, o⟩ := st
    rw [hf] at h
    cases s with
    | nil =>
        simp only [Except.ok.injEq] at h
        subst h
        simp
    | cons a s2 => simp at h

/-- Composition: wrapping any successfully-rendered inner stream in a
Start and End marker of one kind renders to exactly the materialization of
that kind over the independently rendered inner children, with the range
spanning the Start offset to the End offset. -/
theorem renderEvents_wrap (props : MarkdownProps) (t : Tag)
    (inner : List (Event × SourceRange)) (r re : SourceRange) (children : List View)
    (hin : renderEvents props [] [] inner = Except.ok children) :
    renderEvents props [] [] ((Event.start t, r) :: inner ++ [(Event.endTag t, re)]) =
      Except.ok [materialize props t children ⟨r.start, re.stop⟩] := by
  have hfold := renderFold_of_renderEvents_ok props inner children hin
  have hframe : renderFold props ([⟨t, r.start, []⟩], []) inner =
      Except.ok ([⟨t, r.start, children.reverse⟩], []) := by
    simpa using renderFold_frame props inner [] [] ⟨t, r.start, []⟩ [] [] [] children.reverse hfold
  rw [renderEvents_eq_fold]
  have hstep : renderFold props ([], []) ((Event.start t, r) :: inner ++ [(Event.endTag t, re)]) =
      renderFold props ([⟨t, r.start, []⟩], []) (inner ++ [(Event.endTag t, re)]) := by
    simp [renderFold, renderStep]
  rw [hstep, renderFold_append, hframe]
  simp [renderFold, renderStep]

/-- The soft-break rewrite passes Start and End markers through
untouched, so it distributes over a wrapped subtree. -/
theorem replaceSoftBreaks_wrap (t : Tag) (r re : SourceRange)
    (inner : List (Event × SourceRange)) :
    replaceSoftBreaks ((Event.start t, r) :: inner ++ [(Event.endTag t, re)]) =
      (Event.start t, r) :: replaceSoftBreaks inner ++ [(Event.endTag t, re)] := by
  simp [replaceSoftBreaks]

/-- Subtree compositionality through the full pipeline: if rendering the
inner stream alone yields the children, then rendering it wrapped in one
Start and End marker yields the single materialized node over exactly
those children, under either break setting. -/
theorem render_markdown_subtree (props : MarkdownProps) (t : Tag)
    (inner : List (Event × SourceRange)) (r re : SourceRange)
    (children : List View) (effs : List SideEffect)
    (hinner : render_markdown props inner = Except.ok (View.fragment children, effs)) :
    render_markdown props ((Event.start t, r) :: inner ++ [(Event.endTag t, re)]) =
      Except.ok (View.fragment [materialize props t children ⟨r.start, re.stop⟩],
        [SideEffect.mountDynamicLink katexRel katexHref katexIntegrity katexCrossorigin]) := by
  cases hb : props.hard_line_breaks with
  | false =>
      simp only [render_markdown, hb, Bool.false_eq_true, if_false] at hinner ⊢
      rcases hre : renderEvents props [] [] inner with e | elements
      · rw [hre] at hinner; cases hinner
      · rw [hre] at hinner
        simp only [Except.ok.injEq, Prod.mk.injEq, View.fragment.injEq] at hinner
        obtain ⟨hel, heff⟩ := hinner
        subst hel
        rw [renderEvents_wrap props t inner r re elements hre]
  | true =>
      simp only [render_markdown, hb, if_true] at hinner ⊢
      rw [replaceSoftBreaks_wrap]
      rcases hre : renderEvents props [] [] (replaceSoftBreaks inner) with e | elements
      · rw [hre] at hinner; cases hinner
      · rw [hre] at hinner
        simp only [Except.ok.injEq, Prod.mk.injEq, View.fragment.injEq] at hinner
        obtain ⟨hel, heff⟩ := hinner
        subst hel
        rw [renderEvents_wrap props t (replaceSoftBreaks inner) r re elements hre]

/-- Claim C1, counterexample: a document containing two separate math
constructs results in exactly one mount_dynamic_link call, not two, so the
registration call count does not equal the number of math constructs.  The
call at src/lib.rs lines 245 to 250 is unconditional and outside any loop. -/
theorem C1_counterexample_two_math_single_mount :
    mathCount [(Event.math true "x", ⟨0, 5⟩), (Event.math false "y", ⟨6, 11⟩)] = 2 ∧
    resultMountCount (render_markdown ⟨none, none, false, false, [], none⟩
      [(Event.math true "x", ⟨0, 5⟩), (Event.math false "y", ⟨6, 11⟩)]) = 1 ∧
    resultMountCount (render_markdown ⟨none, none, false, false, [], none⟩
      [(Event.math true "x", ⟨0, 5⟩), (Event.math false "y", ⟨6, 11⟩)]) ≠
      mathCount [(Event.math true "x", ⟨0, 5⟩), (Event.math false "y", ⟨6, 11⟩)] := by
  refine ⟨rfl, rfl, ?_⟩
  intro hcontra
  simp only [show resultMountCount (render_markdown ⟨none, none, false, false, [], none⟩
      [(Event.math true "x", ⟨0, 5⟩), (Event.math false "y", ⟨6, 11⟩)]) = 1 from rfl,
    show mathCount [(Event.math true "x", ⟨0, 5⟩), (Event.math false "y", ⟨6, 11⟩)] = 2
      from rfl] at hcontra
  exact absurd hcontra (by decide)

/-- Claim C1 as amended: for every rendered document the dynamic
math-stylesheet registration call is made exactly once per completed render
pass, independently of how many math constructs occur in the document
(including zero); the count is never deduplicated nor repeated by the core. -/
theorem C1_amended_mount_once (props : MarkdownProps)
    (stream : List (Event × SourceRange)) (v : View) (effs : List SideEffect)
    (h : render_markdown props stream = Except.ok (v, effs)) :
    mountCount effs = 1 := by
  simp only [render_markdown] at h
  split at h
  · cases h
  · cases h with
    | refl => rfl

/-- Witness for the amended claim C1 at a concrete two-math document. -/
theorem C1_amended_mount_once_witness :
    render_markdown ⟨none, none, false, false, [], none⟩
      [(Event.math true "x", ⟨0, 5⟩), (Event.math false "y", ⟨6, 11⟩)] =
      Except.ok (View.fragment
        [renderLeaf ⟨none, none, false, false, [], none⟩ (Event.math true "x") ⟨0, 5⟩,
         renderLeaf ⟨none, none, false, false, [], none⟩ (Event.math false "y") ⟨6, 11⟩],
        [SideEffect.mountDynamicLink katexRel katexHref katexIntegrity katexCrossorigin]) ∧
    mountCount [SideEffect.mountDynamicLink katexRel katexHref katexIntegrity katexCrossorigin] = 1 :=
  ⟨rfl, C1_amended_mount_once ⟨none, none, false, false, [], none⟩
    [(Event.math true "x", ⟨0, 5⟩), (Event.math false "y", ⟨6, 11⟩)]
    (View.fragment
      [renderLeaf ⟨none, none, false, false, [], none⟩ (Event.math true "x") ⟨0, 5⟩,
       renderLeaf ⟨none, none, false, false, [], none⟩ (Event.math false "y") ⟨6, 11⟩])
    [SideEffect.mountDynamicLink katexRel katexHref katexIntegrity katexCrossorigin] rfl⟩

/-- Claim C2: exactly when the hard-line-breaks option is set, the render
of a stream equals the render of the same stream with every SoftBreak
replaced by HardBreak; with the option disabled no rewrite happens and a
SoftBreak renders to a different node kind than a HardBreak. -/
theorem C2_soft_break_rewrite (props : MarkdownProps)
    (stream : List (Event × SourceRange)) (r : SourceRange) :
    (props.hard_line_breaks = true →
      render_markdown props stream = render_markdown props (replaceSoftBreaks stream)) ∧
    (props.hard_line_breaks = false →
      render_markdown props [(Event.softBreak, r)] ≠
        render_markdown props [(Event.hardBreak, r)]) := by
  constructor
  · intro h
    simp [render_markdown, h, replaceSoftBreaks_idem]
  · intro h
    simp [render_markdown, h, renderEvents, renderLeaf]

/-- Witness for claim C2 at a concrete one-break stream, with the option
enabled for the rewrite equality and disabled for the node-kind difference. -/
theorem C2_soft_break_rewrite_witness :
    render_markdown ⟨none, none, false, true, [], none⟩ [(Event.softBreak, ⟨0, 1⟩)] =
      render_markdown ⟨none, none, false, true, [], none⟩
        (replaceSoftBreaks [(Event.softBreak, ⟨0, 1⟩)]) ∧
    render_markdown ⟨none, none, false, false, [], none⟩ [(Event.softBreak, ⟨0, 1⟩)] ≠
      render_markdown ⟨none, none, false, false, [], none⟩ [(Event.hardBreak, ⟨0, 1⟩)] :=
  ⟨(C2_soft_break_rewrite ⟨none, none, false, true, [], none⟩
      [(Event.softBreak, ⟨0, 1⟩)] ⟨0, 1⟩).1 rfl,
   (C2_soft_break_rewrite ⟨none, none, false, false, [], none⟩ [] ⟨0, 1⟩).2 rfl⟩

/-- Claim C3: for every link subtree (arbitrary inner event stream), with
an override callback configured, rendering the subtree produces exactly the
value of the callback applied once to a LinkDescription whose content is
the fragment of the independently rendered inner children (the hypothesis
is precisely the independent render of the inner stream under the same
configuration); with no override configured and the subtree not an image,
the same subtree renders to a default anchor node whose href is the link
URL, around the same content. -/
theorem C3_link_override (props : MarkdownProps) (f : LinkDescription → View)
    (lt : LinkType) (url title : String) (img : Bool)
    (inner : List (Event × SourceRange)) (r re : SourceRange)
    (children : List View) (effs : List SideEffect)
    (hinner : render_markdown props inner = Except.ok (View.fragment children, effs)) :
    (props.render_links = some f →
      render_markdown props
        ((Event.start (Tag.link lt url title img), r) :: inner ++
          [(Event.endTag (Tag.link lt url title img), re)]) =
        Except.ok (View.fragment
          [f ⟨url, View.fragment children, title, lt, img⟩],
          [SideEffect.mountDynamicLink katexRel katexHref katexIntegrity katexCrossorigin])) ∧
    (props.render_links = none →
      render_markdown props
        ((Event.start (Tag.link lt url title false), r) :: inner ++
          [(Event.endTag (Tag.link lt url title false), re)]) =
        Except.ok (View.fragment
          [View.a (View.fragment children) url],
          [SideEffect.mountDynamicLink katexRel katexHref katexIntegrity katexCrossorigin])) := by
  constructor
  · intro hf
    rw [render_markdown_subtree props (Tag.link lt url title img) inner r re children effs hinner]
    simp [materialize, render_link, hf]
  · intro hf
    rw [render_markdown_subtree props (Tag.link lt url title false) inner r re children effs hinner]
    simp [materialize, render_link, hf]

/-- Witness for claim C3 at a concrete link subtree whose inner content is
a text leaf followed by a nested emphasis subtree, once with the example
override configured and once with no override. -/
theorem C3_link_override_witness :
    render_markdown propsOverrideW
      ((Event.start (Tag.link LinkType.inline "https://a" "t" false), ⟨0, 20⟩) ::
        innerEmphasisW ++
        [(Event.endTag (Tag.link LinkType.inline "https://a" "t" false), ⟨0, 20⟩)]) =
      Except.ok (View.fragment
        [linkOverrideExample
          ⟨"https://a", View.fragment childrenOverrideW, "t", LinkType.inline, false⟩],
        [SideEffect.mountDynamicLink katexRel katexHref katexIntegrity katexCrossorigin]) ∧
    render_markdown propsPlainW
      ((Event.start (Tag.link LinkType.inline "https://a" "t" false), ⟨0, 20⟩) ::
        innerEmphasisW ++
        [(Event.endTag (Tag.link LinkType.inline "https://a" "t" false), ⟨0, 20⟩)]) =
      Except.ok (View.fragment
        [View.a (View.fragment childrenPlainW) "https://a"],
        [SideEffect.mountDynamicLink katexRel katexHref katexIntegrity katexCrossorigin]) :=
  ⟨(C3_link_override propsOverrideW linkOverrideExample LinkType.inline "https://a" "t" false
      innerEmphasisW ⟨0, 20⟩ ⟨0, 20⟩ childrenOverrideW
      [SideEffect.mountDynamicLink katexRel katexHref katexIntegrity katexCrossorigin] rfl).1 rfl,
   (C3_link_override propsPlainW linkOverrideExample LinkType.inline "https://a" "t" false
      innerEmphasisW ⟨0, 20⟩ ⟨0, 20⟩ childrenPlainW
      [SideEffect.mountDynamicLink katexRel katexHref katexIntegrity katexCrossorigin] rfl).2 rfl⟩

/-- Claim C4: a TaskListMarker leaf renders to a checkbox whose checked
state is the marker value, and activating its click handler performs
prevent-default, then stop-propagation, then dispatches exactly one
MarkdownMouseEvent carrying the original range to the configured callback;
the exact effect list shows the core performs nothing else on a click, in
particular it never toggles the checked state itself. -/
theorem C4_tasklist_checkbox (props : MarkdownProps) (m : Bool) (pos : SourceRange)
    (e : MouseEvent) (u : Unit) (h : props.on_click = some u) :
    (∃ attrs : ElementAttributes,
      render_tasklist_marker props m pos = View.inputCheckbox m attrs) ∧
    fireClick (render_tasklist_marker props m pos) e =
      [Effect.preventDefault e, Effect.stopPropagation e,
       Effect.callbackInvoked ⟨e, pos⟩] := by
  constructor
  · exact ⟨_, rfl⟩
  · simp [fireClick, View.onClick?, render_tasklist_marker, h]

/-- Witness for claim C4 at a concrete marker, position and mouse event. -/
theorem C4_tasklist_checkbox_witness :
    (⟨some (), none, false, false, [], none⟩ : MarkdownProps).on_click = some () ∧
    fireClick (render_tasklist_marker ⟨some (), none, false, false, [], none⟩ true ⟨4, 9⟩) ⟨1⟩ =
      [Effect.preventDefault ⟨1⟩, Effect.stopPropagation ⟨1⟩,
       Effect.callbackInvoked ⟨⟨1⟩, ⟨4, 9⟩⟩] :=
  ⟨rfl, (C4_tasklist_checkbox ⟨some (), none, false, false, [], none⟩ true ⟨4, 9⟩ ⟨1⟩ () rfl).2⟩

/-- Claim C5: position-bearing leaf nodes (text, code, rule) carry exactly
the adapter handler built by make_md_callback over their range, and
activating that handler forwards one MarkdownMouseEvent to the configured
top-level callback when one is present, and forwards nothing when the
props configure no click callback. -/
theorem C5_click_adapter (props : MarkdownProps) (s : String) (pos : SourceRange)
    (e : MouseEvent) :
    (render_text props s pos).onClick? = some (make_md_callback props pos) ∧
    (render_code props s pos).onClick? = some (make_md_callback props pos) ∧
    (render_rule props pos).onClick? = some (make_md_callback props pos) ∧
    (∀ u, props.on_click = some u →
      make_md_callback props pos e = [Effect.callbackInvoked ⟨e, pos⟩]) ∧
    (props.on_click = none → make_md_callback props pos e = []) := by
  refine ⟨rfl, rfl, rfl, ?_, ?_⟩
  · intro u hu
    simp [make_md_callback, hu]
  · intro hn
    simp [make_md_callback, hn]

/-- Witness for claim C5: with a configured callback the adapter forwards
the event, with none configured the click is inert. -/
theorem C5_click_adapter_witness :
    make_md_callback ⟨some (), none, false, false, [], none⟩ ⟨2, 9⟩ ⟨7⟩ =
      [Effect.callbackInvoked ⟨⟨7⟩, ⟨2, 9⟩⟩] ∧
    make_md_callback ⟨none, none, false, false, [], none⟩ ⟨2, 9⟩ ⟨7⟩ = [] :=
  ⟨(C5_click_adapter ⟨some (), none, false, false, [], none⟩ "x" ⟨2, 9⟩ ⟨7⟩).2.2.2.1 () rfl,
   (C5_click_adapter ⟨none, none, false, false, [], none⟩ "x" ⟨2, 9⟩ ⟨7⟩).2.2.2.2 rfl⟩

/-- Claim C6: for every leaf kind the MarkdownMouseEvent dispatched by the
rendered node carries exactly the original range of the leaf, unchanged
(the singleton list states both exact equality of the range and that
exactly one range is associated with the interactive element). -/
theorem C6_source_range_fidelity (props : MarkdownProps) (s : String) (b : Bool)
    (pos : SourceRange) (e : MouseEvent) (u : Unit) (h : props.on_click = some u) :
    clickPositions (fireClick (render_text props s pos) e) = [pos] ∧
    clickPositions (fireClick (render_code props s pos) e) = [pos] ∧
    clickPositions (fireClick (render_rule props pos) e) = [pos] ∧
    clickPositions (fireClick (render_tasklist_marker props b pos) e) = [pos] ∧
    clickPositions (fireClick (renderLeaf props (Event.text s) pos) e) = [pos] := by
  refine ⟨?_, ?_, ?_, ?_, ?_⟩ <;>
    simp [clickPositions, fireClick, View.onClick?, render_text, render_code,
      render_rule, render_tasklist_marker, renderLeaf, make_md_callback, h]

/-- Witness for claim C6 at a concrete leaf range and mouse event. -/
theorem C6_source_range_fidelity_witness :
    clickPositions (fireClick
      (render_text ⟨some (), none, false, false, [], none⟩ "abc" ⟨13, 16⟩) ⟨9⟩) = [⟨13, 16⟩] :=
  (C6_source_range_fidelity ⟨some (), none, false, false, [], none⟩
    "abc" false ⟨13, 16⟩ ⟨9⟩ () rfl).1

/-- Claim C7: on every structurally unbalanced event stream (an End with no
open Start, an End whose kind differs from the top of the stack, or open
accumulators left at the end of the stream) the render pass aborts with the
fatal structural-mismatch error; the error result carries no view, so no incomplete tree is produced and nothing is repaired. -/
theorem C7_structural_mismatch_fatal (props : MarkdownProps)
    (stream : List (Event × SourceRange)) (h : checkBalance [] stream = false) :
    render_markdown props stream = Except.error RenderError.structuralMismatch := by
  simp only [render_markdown]
  cases hb : props.hard_line_breaks with
  | true =>
      have hbal : checkBalance [] (replaceSoftBreaks stream) = false := by
        rw [checkBalance_replaceSoftBreaks]; exact h
      have herr := renderEvents_unbalanced props (replaceSoftBreaks stream) [] []
        (by simpa using hbal)
      simp [herr]
  | false =>
      have herr := renderEvents_unbalanced props stream [] [] (by simpa using h)
      simp [herr]

/-- Witness for claim C7 at a concrete stream whose End has no open Start. -/
theorem C7_structural_mismatch_fatal_witness :
    checkBalance [] [(Event.endTag Tag.paragraph, ⟨0, 1⟩)] = false ∧
    render_markdown ⟨none, none, false, false, [], none⟩
      [(Event.endTag Tag.paragraph, ⟨0, 1⟩)] =
      Except.error RenderError.structuralMismatch :=
  ⟨rfl, C7_structural_mismatch_fatal ⟨none, none, false, false, [], none⟩
    [(Event.endTag Tag.paragraph, ⟨0, 1⟩)] rfl⟩

/-- Claim C8: a component reference whose name is absent from the registry
renders to the empty node (the empty fragment, exactly el_empty) without
raising any error, while the sibling nodes around it render normally and
the whole pass completes. -/
theorem C8_unregistered_component_empty (props : MarkdownProps) (name : String)
    (attrs : List (String × String)) (s1 s2 : String) (r1 r2 r3 r4 : SourceRange)
    (hc : lookupComponent props.components name = none) :
    render_markdown props
      [(Event.text s1, r1),
       (Event.start (Tag.component name attrs), r2),
       (Event.endTag (Tag.component name attrs), r3),
       (Event.text s2, r4)] =
      Except.ok (View.fragment
        [render_text props s1 r1, View.fragment [], render_text props s2 r4],
        [SideEffect.mountDynamicLink katexRel katexHref katexIntegrity katexCrossorigin]) := by
  cases hb : props.hard_line_breaks <;>
    simp [render_markdown, hb, replaceSoftBreaks, renderEvents, renderLeaf,
      materialize, hc]

/-- Witness for claim C8: the registry knows one name and the stream
references another. -/
theorem C8_unregistered_component_empty_witness :
    lookupComponent registryExample "Widget" = none ∧
    render_markdown ⟨none, none, false, false, registryExample, none⟩
      [(Event.text "a", ⟨0, 1⟩),
       (Event.start (Tag.component "Widget" []), ⟨2, 10⟩),
       (Event.endTag (Tag.component "Widget" []), ⟨2, 10⟩),
       (Event.text "b", ⟨11, 12⟩)] =
      Except.ok (View.fragment
        [render_text ⟨none, none, false, false, registryExample, none⟩ "a" ⟨0, 1⟩,
         View.fragment [],
         render_text ⟨none, none, false, false, registryExample, none⟩ "b" ⟨11, 12⟩],
        [SideEffect.mountDynamicLink katexRel katexHref katexIntegrity katexCrossorigin]) :=
  ⟨rfl, C8_unregistered_component_empty ⟨none, none, false, false, registryExample, none⟩
    "Widget" [] "a" "b" ⟨0, 1⟩ ⟨2, 10⟩ ⟨2, 10⟩ ⟨11, 12⟩ rfl⟩

/-- Claim C9: every completed render pass performs exactly one
mount_dynamic_link call, with the fixed stylesheet relation, KaTeX href,
integrity and crossorigin arguments of src/lib.rs lines 245 to 250, after
the traversal (the side-effect list records the calls of the pass in
order) and before the top-level fragment is returned. -/
theorem C9_single_fixed_mount_call (props : MarkdownProps)
    (stream : List (Event × SourceRange)) (v : View) (effs : List SideEffect)
    (h : render_markdown props stream = Except.ok (v, effs)) :
    effs = [SideEffect.mountDynamicLink "stylesheet"
      "https://cdn.jsdelivr.net/npm/katex@0.16.7/dist/katex.min.css"
      "sha384-3UiQGuEI4TTMaFmGIZumfRPtfKQ3trwQE2JgosJxCnGmQpL/lJdjpcHkaaFwHlcI"
      "anonymous"] := by
  simp only [render_markdown] at h
  split at h
  · cases h
  · cases h with
    | refl => rfl

/-- Witness for claim C9 at a concrete document containing no math
construct at all. -/
theorem C9_single_fixed_mount_call_witness :
    render_markdown ⟨none, none, false, false, [], none⟩ [(Event.text "plain", ⟨0, 5⟩)] =
      Except.ok (View.fragment [render_text ⟨none, none, false, false, [], none⟩ "plain" ⟨0, 5⟩],
        [SideEffect.mountDynamicLink katexRel katexHref katexIntegrity katexCrossorigin]) ∧
    [SideEffect.mountDynamicLink katexRel katexHref katexIntegrity katexCrossorigin] =
      [SideEffect.mountDynamicLink "stylesheet"
        "https://cdn.jsdelivr.net/npm/katex@0.16.7/dist/katex.min.css"
        "sha384-3UiQGuEI4TTMaFmGIZumfRPtfKQ3trwQE2JgosJxCnGmQpL/lJdjpcHkaaFwHlcI"
        "anonymous"] :=
  ⟨rfl, C9_single_fixed_mount_call ⟨none, none, false, false, [], none⟩
    [(Event.text "plain", ⟨0, 5⟩)] _ _ rfl⟩

/-- Claim C10: with no override configured and the image flag set, the
default image node takes its src from the URL of the LinkDescription and
its alt from its title field (there is no separate alt-text field at all). -/
theorem C10_default_image_alt_title (props : MarkdownProps) (link : LinkDescription)
    (hf : props.render_links = none) (him : link.image = true) :
    render_link props link = View.img link.url link.title := by
  obtain ⟨url, content, title, lt, image⟩ := link
  simp only at him
  subst him
  simp [render_link, hf]

/-- Witness for claim C10 at a concrete image description. -/
theorem C10_default_image_alt_title_witness :
    render_link ⟨none, none, false, false, [], none⟩
      ⟨"https://img.example/cat.png", View.fragment [], "a cat", LinkType.inline, true⟩ =
      View.img "https://img.example/cat.png" "a cat" :=
  C10_default_image_alt_title ⟨none, none, false, false, [], none⟩
    ⟨"https://img.example/cat.png", View.fragment [], "a cat", LinkType.inline, true⟩ rfl rfl

end RustWebMarkdown
